import Mathlib

/-!
Verification of the httpie command-line client (src/httpie/src/main.rs):
the key=value argument parser, URL validation gate, POST body mapping,
content-type extraction and body rendering.

Rust string slices are modelled as lists of characters (`Str`); fallible
Rust functions are modelled with `Except`; a Rust panic (an `unwrap` on a
failed result) is modelled as `Except.error Panic.panic`.
-/

/-- Rust `&str` / `String`, modelled as a list of characters. -/
abbrev Str := List Char

deriving instance DecidableEq for Except

/-- The key=value pair of `struct KvPair` in main.rs. -/
structure KvPair where
  k : Str
  v : Str
deriving DecidableEq, Repr

/-- The parse-time error of the argument parsers.  `from_str` builds
`anyhow!(format!("Failed to parse ..."))`, carrying the offending input. -/
inductive ParseError where
  | failedToParse (s : Str)
deriving DecidableEq, Repr

/-- Rust `s.split("=")` for the one-character pattern used in
`KvPair::from_str`: the list of maximal `=`-free segments, so that an input
with `n` occurrences of `=` yields `n + 1` segments (possibly empty ones). -/
def splitEq : Str → List Str
  | [] => [[]]
  | c :: rest =>
    if c = '=' then [] :: splitEq rest
    else
      match splitEq rest with
      | [] => [[c]]
      | seg :: segs => (c :: seg) :: segs

/-- `impl FromStr for KvPair` in main.rs: split the input on `=` and take
the first two items of the iterator as key and value (`split.next()`
twice); if either `next()` returns `None` the parse fails. -/
def KvPair.from_str (s : Str) : Except ParseError KvPair :=
  match splitEq s with
  | k :: v :: _ => .ok ⟨k, v⟩
  | _ => .error (.failedToParse s)

/-- `parse_kv_pair` in main.rs: delegates to the `FromStr` instance. -/
def parse_kv_pair (s : Str) : Except ParseError KvPair :=
  KvPair.from_str s

theorem splitEq_ne_nil (l : Str) : splitEq l ≠ [] := by
  induction l with
  | nil => simp [splitEq]
  | cons c rest ih =>
    simp only [splitEq]
    split
    · simp
    · match h : splitEq rest with
      | [] => simp
      | seg :: segs => simp

theorem splitEq_head (l : Str) :
    ∃ t, splitEq l = l.takeWhile (fun c => c ≠ '=') :: t := by
  induction l with
  | nil => exact ⟨[], rfl⟩
  | cons c rest ih =>
    by_cases hc : c = '='
    · subst hc
      refine ⟨splitEq rest, ?_⟩
      simp [splitEq, List.takeWhile]
    · obtain ⟨t, ht⟩ := ih
      refine ⟨t, ?_⟩
      simp only [splitEq, if_neg hc, ht]
      simp [List.takeWhile, hc]

theorem splitEq_no_eq (l : Str) (h : '=' ∉ l) : splitEq l = [l] := by
  induction l with
  | nil => rfl
  | cons c rest ih =>
    simp only [List.mem_cons, not_or] at h
    have hc : ¬ c = '=' := fun hcc => h.1 hcc.symm
    simp only [splitEq, if_neg hc, ih h.2]

theorem splitEq_append (k rest : Str) (h : '=' ∉ k) :
    splitEq (k ++ '=' :: rest) = k :: splitEq rest := by
  induction k with
  | nil => simp [splitEq]
  | cons c tl ih =>
    simp only [List.mem_cons, not_or] at h
    have hc : ¬ c = '=' := fun hcc => h.1 hcc.symm
    have ihh := ih h.2
    simp only [List.cons_append, splitEq, if_neg hc, List.append_eq, ihh]

theorem splitEq_two_of_mem (l : Str) (h : '=' ∈ l) :
    ∃ a b t, splitEq l = a :: b :: t := by
  induction l with
  | nil => cases h
  | cons c rest ih =>
    by_cases hc : c = '='
    · subst hc
      obtain ⟨b, t, hbt⟩ := List.exists_cons_of_ne_nil (splitEq_ne_nil rest)
      exact ⟨[], b, t, by simp [splitEq, hbt]⟩
    · have hr : '=' ∈ rest := by
        rcases List.mem_cons.mp h with h1 | h2
        · exact absurd h1.symm hc
        · exact h2
      obtain ⟨a, b, t, habt⟩ := ih hr
      exact ⟨c :: a, b, t, by simp [splitEq, if_neg hc, habt]⟩

/-- Claim C1 counterexample: parsing `a=b=c` yields value `b`, not `b=c`;
the value is only the segment between the first and second `=`, so the
claimed first-occurrence split is not what the code does. -/
theorem kv_split_second_segment_cex :
    KvPair.from_str "a=b=c".toList = .ok ⟨"a".toList, "b".toList⟩ ∧
    KvPair.from_str "a=b=c".toList ≠ .ok ⟨"a".toList, "b=c".toList⟩ := by
  constructor
  · rfl
  · decide

/-- Claim C1 (amended): for input `k ++ "=" ++ v` with `k` free of `=`,
the parser succeeds with key `k` and value the portion of `v` before the
first `=` of `v` (all of `v` when `v` has no `=`); characters of `v` after
a further `=` are dropped from the value. -/
theorem kv_from_str_amended (k v : Str) (hk : '=' ∉ k) :
    KvPair.from_str (k ++ '=' :: v) = .ok ⟨k, v.takeWhile (fun c => c ≠ '=')⟩ := by
  obtain ⟨t, ht⟩ := splitEq_head v
  simp only [KvPair.from_str, splitEq_append k v hk, ht]

/-- Claim C1 amended theorem instantiated at `a=b=c`. -/
theorem kv_from_str_amended_witness :
    KvPair.from_str "a=b=c".toList = .ok ⟨"a".toList, "b".toList⟩ := by
  have h := kv_from_str_amended "a".toList "b=c".toList (by decide)
  simpa using h

/-- Claim C4: an input with at least one `=` always parses, even when the
part before or after the split is empty: `=v`, `k=` and `=` are accepted
with an empty key or value. -/
theorem kv_accepts_any_with_eq :
    (∀ s : Str, '=' ∈ s → (KvPair.from_str s).isOk = true) ∧
    KvPair.from_str "=v".toList = .ok ⟨"".toList, "v".toList⟩ ∧
    KvPair.from_str "k=".toList = .ok ⟨"k".toList, "".toList⟩ ∧
    KvPair.from_str "=".toList = .ok ⟨"".toList, "".toList⟩ := by
  refine ⟨fun s hs => ?_, rfl, rfl, rfl⟩
  obtain ⟨a, b, t, h⟩ := splitEq_two_of_mem s hs
  simp [KvPair.from_str, h, Except.isOk, Except.toBool]

/-- Claim C4 instantiated at `x=`. -/
theorem kv_accepts_any_with_eq_witness :
    (KvPair.from_str "x=".toList).isOk = true :=
  kv_accepts_any_with_eq.1 "x=".toList (by decide)

/-- Claim C5: an input with no `=` at all never parses: the second
`split.next()` finds nothing and `from_str` returns the parse error. -/
theorem kv_fails_without_eq (s : Str) (h : '=' ∉ s) :
    KvPair.from_str s = .error (.failedToParse s) := by
  simp [KvPair.from_str, splitEq_no_eq s h]

/-- Claim C5 instantiated at `abc`. -/
theorem kv_fails_without_eq_witness :
    KvPair.from_str "abc".toList = .error (.failedToParse "abc".toList) :=
  kv_fails_without_eq "abc".toList (by decide)

/-- Claim C10: whenever the parser succeeds the returned key contains no
`=`: the key is the first `=`-free segment of the input. -/
theorem kv_key_has_no_eq (s : Str) (p : KvPair)
    (h : KvPair.from_str s = .ok p) : '=' ∉ p.k := by
  obtain ⟨t, ht⟩ := splitEq_head s
  unfold KvPair.from_str at h
  rw [ht] at h
  match t, h with
  | v :: rest, h =>
    simp only [Except.ok.injEq] at h
    subst h
    intro hmem
    have := List.mem_takeWhile_imp hmem
    simp at this

/-- Claim C10 instantiated at `a=b`. -/
theorem kv_key_has_no_eq_witness :
    '=' ∉ (⟨"a".toList, "b".toList⟩ : KvPair).k :=
  kv_key_has_no_eq "a=b".toList ⟨"a".toList, "b".toList⟩ rfl

/-! ### Content-type extraction (`get_content_type` in main.rs) -/

/-- A Rust panic (an `unwrap` of a `None`/`Err`), modelled as an error
value so that reaching it is observable. -/
inductive Panic where
  | panic
deriving DecidableEq, Repr

/-- A parsed MIME descriptor of the external `mime` collaborator: the
lowercased type and subtype, plus the raw parameter section of the header
value (kept verbatim so that a value with parameters is distinct from the
bare `application/json` essence, as it is for the collaborator's equality). -/
structure Mime where
  type_ : Str
  subtype : Str
  params : Str
deriving DecidableEq, Repr

/-- A character allowed in a MIME type or subtype token. -/
def isMimeTokenChar (c : Char) : Bool :=
  c.isAlphanum || c = '-' || c = '+' || c = '.'

/-- A non-empty run of MIME token characters. -/
def mimeToken (l : Str) : Bool :=
  !l.isEmpty && l.all isMimeTokenChar

/-- Modelled from the spec: the external `mime` collaborator parses a
header value as a MIME type descriptor (`type/subtype` essence, optionally
followed by a `;`-introduced parameter section); a value without that shape
fails to parse. -/
def parseMime (s : Str) : Option Mime :=
  let essence := s.takeWhile (fun c => c ≠ ';')
  let params := s.dropWhile (fun c => c ≠ ';')
  let ty := essence.takeWhile (fun c => c ≠ '/')
  match essence.dropWhile (fun c => c ≠ '/') with
  | '/' :: sub =>
    if mimeToken ty && mimeToken sub then
      some ⟨ty.map Char.toLower, sub.map Char.toLower, params⟩
    else none
  | _ => none

/-- The `mime::APPLICATION_JSON` constant compared against in `print_body`. -/
def APPLICATION_JSON : Mime :=
  ⟨"application".toList, "json".toList, []⟩

/-- `get_content_type` in main.rs: map over the optional `Content-Type`
header value, parsing it with `.parse().unwrap()` — the `unwrap` panics
when the value is not a MIME type.  (Header values are modelled as `Str`;
the `to_str` byte-validity unwrap is outside the model.) -/
def get_content_type (contentType : Option Str) : Except Panic (Option Mime) :=
  match contentType with
  | none => .ok none
  | some v =>
    match parseMime v with
    | some m => .ok (some m)
    | none => .error .panic

/-- Claim C2 counterexample: the header value `xyz` has no MIME shape, and
`get_content_type` panics on it instead of returning the no-MIME-info
result. -/
theorem content_type_unparseable_panics_cex :
    parseMime "xyz".toList = none ∧
    get_content_type (some "xyz".toList) = .error .panic := ⟨rfl, rfl⟩

/-- Claim C2 (amended): an absent `Content-Type` header yields no MIME
info without error, and a present header value yields its parsed MIME
type; but a present value that fails to parse panics (the extraction
unwraps the parse result) rather than yielding no MIME info. -/
theorem content_type_amended :
    get_content_type none = .ok none ∧
    (∀ s : Str, parseMime s = none → get_content_type (some s) = .error .panic) ∧
    (∀ (s : Str) (m : Mime), parseMime s = some m →
      get_content_type (some s) = .ok (some m)) := by
  refine ⟨rfl, fun s h => ?_, fun s m h => ?_⟩ <;> simp [get_content_type, h]

/-- Claim C2 amended theorem instantiated at the header value `xyz`. -/
theorem content_type_amended_witness :
    get_content_type (some "xyz".toList) = .error .panic :=
  content_type_amended.2.1 "xyz".toList rfl

/-! ### URL validation (`parse_url` in main.rs) -/

/-- The URL-validation failure (`s.parse::<Url>()` erring in `parse_url`). -/
inductive UrlError where
  | invalidUrl
deriving DecidableEq, Repr

/-- Split a string at the first occurrence of the `://` separator. -/
def splitSchemeSep : Str → Option (Str × Str)
  | [] => none
  | ':' :: '/' :: '/' :: rest => some ([], rest)
  | c :: rest => (splitSchemeSep rest).map (fun p => (c :: p.1, p.2))

/-- A character allowed in a URL scheme after its leading letter. -/
def isSchemeChar (c : Char) : Bool :=
  c.isAlphanum || c = '+' || c = '-' || c = '.'

/-- A character allowed in a URL host (with optional `:port`). -/
def isHostChar (c : Char) : Bool :=
  c.isAlphanum || c = '.' || c = '-' || c = ':'

/-- Modelled from the spec: the external `url` collaborator accepts a
syntactically valid absolute URL — a scheme (letter-led token) before
`://`, then a non-empty well-formed host authority before any
path/query/fragment — and rejects a string lacking scheme or host. -/
def urlValid (s : Str) : Bool :=
  match splitSchemeSep s with
  | none => false
  | some (scheme, rest) =>
    let authority := rest.takeWhile (fun c => c ≠ '/' && c ≠ '?' && c ≠ '#')
    (match scheme with
     | [] => false
     | c :: cs => c.isAlpha && cs.all isSchemeChar) &&
    !authority.isEmpty && authority.all isHostChar

/-- `parse_url` in main.rs: parse the string as a `Url` purely as a check
(`let _url : Url = s.parse()?`), then return the original string. -/
def parse_url (s : Str) : Except UrlError Str :=
  if urlValid s then .ok s else .error .invalidUrl

/-- Claim C7: `parse_url` is a pure validation gate — whatever it accepts
it returns unchanged — and it accepts the two sample absolute URLs while
rejecting `not-a-url` and the empty string. -/
theorem parse_url_validation_gate :
    (∀ s t : Str, parse_url s = .ok t → t = s) ∧
    parse_url "http://example.com".toList = .ok "http://example.com".toList ∧
    parse_url "https://example.com/path?x=1".toList =
      .ok "https://example.com/path?x=1".toList ∧
    parse_url "not-a-url".toList = .error .invalidUrl ∧
    parse_url "".toList = .error .invalidUrl := by
  refine ⟨fun s t h => ?_, by decide, by decide, by decide, rfl⟩
  unfold parse_url at h
  split at h
  · exact (Except.ok.inj h).symm
  · cases h

/-- Claim C7 theorem instantiated at `http://example.com`. -/
theorem parse_url_validation_gate_witness :
    "http://example.com".toList = "http://example.com".toList :=
  parse_url_validation_gate.1 "http://example.com".toList
    "http://example.com".toList (by decide)

/-! ### Body rendering (`print_body` in main.rs) and the jsonxf collaborator -/

/-- The double-quote character. -/
def quoteChar : Char := Char.ofNat 34

/-- The backslash character. -/
def backslashChar : Char := Char.ofNat 92

/-- The opening-brace character. -/
def lbraceChar : Char := Char.ofNat 123

/-- The closing-brace character. -/
def rbraceChar : Char := Char.ofNat 125

/-- The newline character. -/
def nlChar : Char := Char.ofNat 10

/-- The space character. -/
def spChar : Char := Char.ofNat 32

/-- JSON insignificant whitespace: space, tab, newline, carriage return. -/
def isJsonWs (c : Char) : Bool :=
  c = Char.ofNat 32 || c = Char.ofNat 9 || c = Char.ofNat 10 || c = Char.ofNat 13

/-- Drop leading JSON whitespace. -/
def skipWs (s : Str) : Str := s.dropWhile isJsonWs

mutual
/-- A JSON document: numbers and string bodies are kept as their raw
source characters (escape sequences included), since the pretty-printer
re-emits them verbatim. -/
inductive Json where
  | null
  | bool (b : Bool)
  | num (digits : Str)
  | str (content : Str)
  | arr (elems : JsonList)
  | obj (fields : JsonFields)

/-- A sequence of JSON array elements. -/
inductive JsonList where
  | nil
  | cons (hd : Json) (tl : JsonList)

/-- A sequence of JSON object fields. -/
inductive JsonFields where
  | nil
  | cons (key : Str) (val : Json) (tl : JsonFields)
end

/-- A hexadecimal digit. -/
def isHexDigitChar (c : Char) : Bool :=
  c.isDigit || ('a' ≤ c && c ≤ 'f') || ('A' ≤ c && c ≤ 'F')

/-- A character that may follow a backslash in a JSON string. -/
def escapeCharOk (c : Char) : Bool :=
  c = quoteChar || c = backslashChar || c = '/' || c = 'b' || c = 'f' ||
  c = 'n' || c = 'r' || c = 't'

/-- Parse the body of a JSON string after its opening quote, returning the
raw content (escapes included) and the remainder after the closing quote. -/
def parseStringBody : Str → Option (Str × Str)
  | [] => none
  | c :: rest =>
    if c = quoteChar then some ([], rest)
    else if c = backslashChar then
      match rest with
      | [] => none
      | e :: rest2 =>
        if escapeCharOk e then
          (parseStringBody rest2).map (fun p => (c :: e :: p.1, p.2))
        else if e = 'u' then
          match rest2 with
          | h1 :: h2 :: h3 :: h4 :: rest3 =>
            if isHexDigitChar h1 && isHexDigitChar h2 &&
                isHexDigitChar h3 && isHexDigitChar h4 then
              (parseStringBody rest3).map
                (fun p => (c :: e :: h1 :: h2 :: h3 :: h4 :: p.1, p.2))
            else none
          | _ => none
        else none
    else if 32 ≤ c.toNat then
      (parseStringBody rest).map (fun p => (c :: p.1, p.2))
    else none

/-- Parse an optional exponent part after the number prefix `acc`. -/
def parseExpPart (acc : Str) (s : Str) : Option (Str × Str) :=
  match s with
  | [] => some (acc, [])
  | c :: rest =>
    if c = 'e' || c = 'E' then
      let sg : Str × Str :=
        match rest with
        | '+' :: r => (['+'], r)
        | '-' :: r => (['-'], r)
        | _ => ([], rest)
      let ds := sg.2.takeWhile Char.isDigit
      if ds.isEmpty then none
      else some (acc ++ c :: sg.1 ++ ds, sg.2.dropWhile Char.isDigit)
    else some (acc, c :: rest)

/-- Parse a JSON integer part: `0` alone, or a nonzero digit run. -/
def parseIntPart : Str → Option (Str × Str)
  | '0' :: rest => some (['0'], rest)
  | s =>
    let ds := s.takeWhile Char.isDigit
    if ds.isEmpty then none else some (ds, s.dropWhile Char.isDigit)

/-- Parse a JSON number (optional sign, integer part, optional fraction,
optional exponent), returning its raw characters and the remainder. -/
def parseNumber (s : Str) : Option (Str × Str) :=
  let sgn : Str × Str :=
    match s with
    | '-' :: rest => (['-'], rest)
    | _ => ([], s)
  match parseIntPart sgn.2 with
  | none => none
  | some (ip, s2) =>
    match s2 with
    | '.' :: s3 =>
      let fd := s3.takeWhile Char.isDigit
      if fd.isEmpty then none
      else parseExpPart (sgn.1 ++ ip ++ '.' :: fd) (s3.dropWhile Char.isDigit)
    | _ => parseExpPart (sgn.1 ++ ip) s2

mutual
/-- Parse one JSON value (fuel-indexed so arbitrary nesting terminates),
returning the value and the unconsumed remainder. -/
def parseJsonVal : Nat → Str → Option (Json × Str)
  | 0, _ => none
  | fuel + 1, s =>
    match skipWs s with
    | 'n' :: 'u' :: 'l' :: 'l' :: rest => some (.null, rest)
    | 't' :: 'r' :: 'u' :: 'e' :: rest => some (.bool true, rest)
    | 'f' :: 'a' :: 'l' :: 's' :: 'e' :: rest => some (.bool false, rest)
    | c :: rest =>
      if c = quoteChar then
        (parseStringBody rest).map (fun p => (.str p.1, p.2))
      else if c = lbraceChar then
        parseObjBody fuel rest
      else if c = '[' then
        parseArrBody fuel rest
      else
        (parseNumber (c :: rest)).map (fun p => (.num p.1, p.2))
    | [] => none

/-- Parse an array body after its opening bracket. -/
def parseArrBody : Nat → Str → Option (Json × Str)
  | 0, _ => none
  | fuel + 1, s =>
    match skipWs s with
    | ']' :: rest => some (.arr .nil, rest)
    | s1 =>
      match parseJsonVal fuel s1 with
      | none => none
      | some (j, rest) =>
        match parseArrItems fuel rest with
        | none => none
        | some (js, rest2) => some (.arr (.cons j js), rest2)

/-- Parse the `, value`* tail of an array up to the closing bracket. -/
def parseArrItems : Nat → Str → Option (JsonList × Str)
  | 0, _ => none
  | fuel + 1, s =>
    match skipWs s with
    | ',' :: rest =>
      match parseJsonVal fuel rest with
      | none => none
      | some (j, rest2) =>
        match parseArrItems fuel rest2 with
        | none => none
        | some (js, rest3) => some (.cons j js, rest3)
    | ']' :: rest => some (.nil, rest)
    | _ => none

/-- Parse an object body after its opening brace. -/
def parseObjBody : Nat → Str → Option (Json × Str)
  | 0, _ => none
  | fuel + 1, s =>
    match skipWs s with
    | [] => none
    | c :: rest =>
      if c = rbraceChar then some (.obj .nil, rest)
      else if c = quoteChar then
        match parseStringBody rest with
        | none => none
        | some (key, rest2) =>
          match skipWs rest2 with
          | ':' :: rest3 =>
            match parseJsonVal fuel rest3 with
            | none => none
            | some (j, rest4) =>
              match parseObjItems fuel rest4 with
              | none => none
              | some (fs, rest5) => some (.obj (.cons key j fs), rest5)
          | _ => none
      else none

/-- Parse the `, "key": value`* tail of an object up to the closing brace. -/
def parseObjItems : Nat → Str → Option (JsonFields × Str)
  | 0, _ => none
  | fuel + 1, s =>
    match skipWs s with
    | [] => none
    | c :: rest =>
      if c = rbraceChar then some (.nil, rest)
      else if c = ',' then
        match skipWs rest with
        | [] => none
        | c2 :: rest2 =>
          if c2 = quoteChar then
            match parseStringBody rest2 with
            | none => none
            | some (key, rest3) =>
              match skipWs rest3 with
              | ':' :: rest4 =>
                match parseJsonVal fuel rest4 with
                | none => none
                | some (j, rest5) =>
                  match parseObjItems fuel rest5 with
                  | none => none
                  | some (fs, rest6) => some (.cons key j fs, rest6)
              | _ => none
          else none
      else none
end

/-- Modelled from the spec: validity of a body as a JSON document (the
condition under which the external jsonxf collaborator's pretty-printing
succeeds).  The fuel bound exceeds the nesting any input of that length
can reach. -/
def jsonParse (s : Str) : Option Json :=
  match parseJsonVal (2 * s.length + 2) s with
  | some (j, rest) => if skipWs rest = [] then some j else none
  | none => none

/-- Indentation: `n` spaces. -/
def indentChars (n : Nat) : Str := List.replicate n spChar

mutual
/-- Pretty-print a JSON value at indentation `ind`: two-space indentation,
one element or field per line, `: ` between key and value, empty
containers kept on one line. -/
def prettyJson (ind : Nat) : Json → Str
  | .null => "null".toList
  | .bool true => "true".toList
  | .bool false => "false".toList
  | .num d => d
  | .str c => quoteChar :: c ++ [quoteChar]
  | .arr .nil => ['[', ']']
  | .arr (.cons x xs) =>
    '[' :: nlChar :: indentChars (ind + 2) ++ prettyJson (ind + 2) x ++
      prettyJsonList (ind + 2) xs ++ nlChar :: indentChars ind ++ [']']
  | .obj .nil => [lbraceChar, rbraceChar]
  | .obj (.cons k v fs) =>
    lbraceChar :: nlChar :: indentChars (ind + 2) ++
      (quoteChar :: k ++ quoteChar :: ':' :: spChar :: prettyJson (ind + 2) v) ++
      prettyJsonFields (ind + 2) fs ++ nlChar :: indentChars ind ++ [rbraceChar]

/-- Pretty-print the remaining array elements. -/
def prettyJsonList (ind : Nat) : JsonList → Str
  | .nil => []
  | .cons x xs =>
    ',' :: nlChar :: indentChars ind ++ prettyJson ind x ++ prettyJsonList ind xs

/-- Pretty-print the remaining object fields. -/
def prettyJsonFields (ind : Nat) : JsonFields → Str
  | .nil => []
  | .cons k v fs =>
    ',' :: nlChar :: indentChars ind ++
      (quoteChar :: k ++ quoteChar :: ':' :: spChar :: prettyJson ind v) ++
      prettyJsonFields ind fs
end

/-- Modelled from the spec: `jsonxf::pretty_print` re-indents a valid JSON
body and fails (with a message) when the body is not valid JSON. -/
def jsonxf_pretty_print (s : Str) : Except Str Str :=
  match jsonParse s with
  | some j => .ok (prettyJson 0 j)
  | none => .error ("malformed JSON".toList)

/-- `print_body` in main.rs: when the MIME type equals
`mime::APPLICATION_JSON` print `jsonxf::pretty_print(body).unwrap()` — the
`unwrap` panics when pretty-printing fails; in every other case print the
body unchanged.  The result is the printed text (terminal colouring and
the print side effect are elided: the model returns what is printed). -/
def print_body (m : Option Mime) (body : Str) : Except Panic Str :=
  match m with
  | some v =>
    if v = APPLICATION_JSON then
      match jsonxf_pretty_print body with
      | .ok s => .ok s
      | .error _ => .error .panic
    else .ok body
  | none => .ok body

/-- Claim C3 counterexample: for the malformed JSON body consisting of a
lone opening brace under `application/json`, `print_body` panics (the
`unwrap` on the failed pretty-print); it has no recoverable error channel
to return a malformed-JSON error through. -/
theorem print_body_malformed_json_panics_cex :
    jsonParse [lbraceChar] = none ∧
    print_body (some APPLICATION_JSON) [lbraceChar] = .error .panic := ⟨rfl, rfl⟩

/-- Claim C3 (amended): when the determined MIME type is exactly
`application/json` and the body is not valid JSON, the renderer panics
(aborts via `unwrap`) instead of returning a recoverable malformed-JSON
error value to its caller. -/
theorem print_body_malformed_json_amended (body : Str)
    (h : jsonParse body = none) :
    print_body (some APPLICATION_JSON) body = .error .panic := by
  simp [print_body, jsonxf_pretty_print, h]

/-- Claim C3 amended theorem instantiated at the lone-brace body. -/
theorem print_body_malformed_json_amended_witness :
    print_body (some APPLICATION_JSON) [lbraceChar] = .error .panic :=
  print_body_malformed_json_amended [lbraceChar] rfl

/-- Claim C8: under MIME type exactly `application/json`, a body that is
valid JSON is printed in its re-indented pretty form; in particular the
one-line body of the object with field `x = 1` is printed over three lines,
not as the raw body text. -/
theorem print_body_json_pretty :
    (∀ (body : Str) (j : Json), jsonParse body = some j →
      print_body (some APPLICATION_JSON) body = .ok (prettyJson 0 j)) ∧
    print_body (some APPLICATION_JSON) "\x7b\"x\":1\x7d".toList =
      .ok "\x7b\n  \"x\": 1\n\x7d".toList ∧
    "\x7b\n  \"x\": 1\n\x7d".toList ≠ "\x7b\"x\":1\x7d".toList := by
  refine ⟨fun body j h => ?_, rfl, by decide⟩
  simp [print_body, jsonxf_pretty_print, h]

/-- Claim C8 theorem instantiated at the one-field object body. -/
theorem print_body_json_pretty_witness :
    print_body (some APPLICATION_JSON) "\x7b\"x\":1\x7d".toList =
      .ok (prettyJson 0 (Json.obj
        (JsonFields.cons "x".toList (Json.num "1".toList) JsonFields.nil))) :=
  print_body_json_pretty.1 "\x7b\"x\":1\x7d".toList
    (Json.obj (JsonFields.cons "x".toList (Json.num "1".toList) JsonFields.nil)) rfl

/-- Claim C9: with no MIME info, or with any MIME type other than
`application/json` (for instance `text/plain`), the body is printed
verbatim with no error and no JSON formatting. -/
theorem print_body_verbatim :
    (∀ body : Str, print_body none body = .ok body) ∧
    (∀ (v : Mime) (body : Str), v ≠ APPLICATION_JSON →
      print_body (some v) body = .ok body) ∧
    print_body (some ⟨"text".toList, "plain".toList, []⟩) "hello".toList =
      .ok "hello".toList := by
  refine ⟨fun body => rfl, fun v body hv => ?_, rfl⟩
  simp [print_body, hv]

/-- Claim C9 theorem instantiated at `text/plain` and body `hi`. -/
theorem print_body_verbatim_witness :
    print_body (some ⟨"text".toList, "plain".toList, []⟩) "hi".toList =
      .ok "hi".toList :=
  print_body_verbatim.2.1 ⟨"text".toList, "plain".toList, []⟩ "hi".toList (by decide)

/-! ### POST body construction (`post` in main.rs) -/

/-- Modelled from the spec and the std collaborator: `HashMap::insert`
keeps unique keys, replacing the stored value when the key is already
present and adding a new entry otherwise.  The map is an association list;
its iteration order is abstracted as insertion order (no claim depends on
order). -/
def insertHashMap (m : List (Str × Str)) (k v : Str) : List (Str × Str) :=
  if m.any (fun p => decide (p.1 = k)) then
    m.map (fun p => if p.1 = k then (k, v) else p)
  else m ++ [(k, v)]

/-- The body-building loop of `post` in main.rs: fold the parsed pairs
into the map with `body.insert(&pair.k, &pair.v)` in argument order. -/
def post_body (pairs : List KvPair) : List (Str × Str) :=
  pairs.foldl (fun acc p => insertHashMap acc p.k p.v) []

/-- The value stored in an association list under key `k`. -/
def lookupKey : List (Str × Str) → Str → Option Str
  | [], _ => none
  | p :: m, k => if p.1 = k then some p.2 else lookupKey m k

/-- The value of the last pair with key `k` in a pair sequence. -/
def lastWins : List KvPair → Str → Option Str
  | [], _ => none
  | p :: rest, k =>
    match lastWins rest k with
    | some w => some w
    | none => if p.k = k then some p.v else none

theorem lookupKey_replace (m : List (Str × Str)) (k v k' : Str) :
    lookupKey (m.map (fun p => if p.1 = k then (k, v) else p)) k' =
      if k' = k then (if m.any (fun p => decide (p.1 = k)) then some v else none)
      else lookupKey m k' := by
  induction m with
  | nil => by_cases hk : k' = k <;> simp [lookupKey, hk]
  | cons p m ih =>
    by_cases hp : p.1 = k <;> by_cases hk : k' = k
    · simp [lookupKey, hp, hk]
    · have hk2 : ¬ k = k' := fun h => hk h.symm
      simp only [List.map_cons, lookupKey, if_pos hp]
      rw [ih]
      simp [hp, hk, hk2]
    · have hp2 : ¬ p.1 = k' := fun h => hp (h.trans hk)
      simp only [List.map_cons, lookupKey, if_neg hp]
      rw [ih]
      simp only [List.any_cons, if_pos hk, if_neg hp2, decide_eq_false hp,
        Bool.false_or]
    · simp only [List.map_cons, lookupKey, if_neg hp]
      rw [ih]
      simp only [List.any_cons, if_neg hk, if_neg hp, decide_eq_false hp,
        Bool.false_or]

theorem lookupKey_append_single (m : List (Str × Str)) (k v k' : Str) :
    lookupKey (m ++ [(k, v)]) k' =
      match lookupKey m k' with
      | some w => some w
      | none => if k = k' then some v else none := by
  induction m with
  | nil => simp [lookupKey]
  | cons p m ih =>
    by_cases hp : p.1 = k' <;> simp [lookupKey, hp, ih]

theorem lookupKey_eq_none_of_forall (m : List (Str × Str)) (k : Str)
    (h : ∀ p ∈ m, ¬ p.1 = k) : lookupKey m k = none := by
  induction m with
  | nil => rfl
  | cons p m ih =>
    simp only [lookupKey, if_neg (h p (List.mem_cons_self p m))]
    exact ih fun q hq => h q (List.mem_cons_of_mem p hq)

theorem any_false_forall (m : List (Str × Str)) (k : Str)
    (h : ¬ m.any (fun p => decide (p.1 = k)) = true) : ∀ p ∈ m, ¬ p.1 = k := by
  intro q hq hqe
  exact h (List.any_eq_true.mpr ⟨q, hq, by simpa using hqe⟩)

theorem lookupKey_insertHashMap (m : List (Str × Str)) (k v k' : Str) :
    lookupKey (insertHashMap m k v) k' =
      if k' = k then some v else lookupKey m k' := by
  unfold insertHashMap
  split
  · rename_i hany
    rw [lookupKey_replace, hany]
    simp
  · rename_i hany
    rw [lookupKey_append_single]
    have hnone := lookupKey_eq_none_of_forall m k (any_false_forall m k hany)
    by_cases hk : k' = k
    · subst hk
      simp [hnone]
    · have hk2 : ¬ k = k' := fun h => hk h.symm
      cases hlk : lookupKey m k' <;> simp [hk, hk2, hlk]

theorem keys_insertHashMap (m : List (Str × Str)) (k v : Str)
    (h : (m.map Prod.fst).Nodup) :
    ((insertHashMap m k v).map Prod.fst).Nodup := by
  unfold insertHashMap
  split
  · have heq : (m.map (fun p => if p.1 = k then (k, v) else p)).map Prod.fst =
        m.map Prod.fst := by
      rw [List.map_map]
      apply List.map_congr_left
      intro p _
      by_cases hpk : p.1 = k <;> simp [hpk]
    rw [heq]
    exact h
  · rename_i hany
    have hall := any_false_forall m k hany
    rw [List.map_append, List.nodup_append]
    refine ⟨h, by simp, ?_⟩
    intro a ha hb
    simp only [List.map_cons, List.map_nil, List.mem_singleton] at hb
    obtain ⟨p, hp, hpa⟩ := List.mem_map.mp ha
    exact hall p hp (hpa.trans hb)

theorem post_body_foldl_lookup (pairs : List KvPair) (m : List (Str × Str))
    (k : Str) :
    lookupKey (pairs.foldl (fun acc p => insertHashMap acc p.k p.v) m) k =
      match lastWins pairs k with
      | some w => some w
      | none => lookupKey m k := by
  induction pairs generalizing m with
  | nil => simp [lastWins]
  | cons p rest ih =>
    simp only [List.foldl_cons, lastWins]
    rw [ih]
    cases hlw : lastWins rest k with
    | some w => rfl
    | none =>
      rw [lookupKey_insertHashMap]
      by_cases hk : k = p.k
      · subst hk
        simp
      · have hk2 : ¬ p.k = k := fun hkk => hk hkk.symm
        simp [hk, hk2]

theorem post_body_foldl_nodup (pairs : List KvPair) (m : List (Str × Str))
    (h : (m.map Prod.fst).Nodup) :
    ((pairs.foldl (fun acc p => insertHashMap acc p.k p.v) m).map Prod.fst).Nodup := by
  induction pairs generalizing m with
  | nil => exact h
  | cons p rest ih => exact ih _ (keys_insertHashMap _ _ _ h)

/-- Claim C6: the POST body mapping has unique keys, the value found for a
key is that of the last pair carrying it, and the duplicate example
`a=1, a=2` leaves exactly one `a` entry with value `2`. -/
theorem post_body_last_wins :
    (∀ pairs : List KvPair, ((post_body pairs).map Prod.fst).Nodup) ∧
    (∀ (pairs : List KvPair) (k : Str),
      lookupKey (post_body pairs) k = lastWins pairs k) ∧
    post_body [⟨"a".toList, "1".toList⟩, ⟨"a".toList, "2".toList⟩] =
      [("a".toList, "2".toList)] := by
  refine ⟨fun pairs => post_body_foldl_nodup pairs [] (by simp),
    fun pairs k => ?_, rfl⟩
  unfold post_body
  rw [post_body_foldl_lookup]
  cases lastWins pairs k <;> simp [lookupKey]

/-- Claim C6 theorem instantiated at the duplicate-key example. -/
theorem post_body_last_wins_witness :
    lookupKey (post_body [⟨"a".toList, "1".toList⟩, ⟨"a".toList, "2".toList⟩])
        "a".toList =
      lastWins [⟨"a".toList, "1".toList⟩, ⟨"a".toList, "2".toList⟩] "a".toList :=
  post_body_last_wins.2.1
    [⟨"a".toList, "1".toList⟩, ⟨"a".toList, "2".toList⟩] "a".toList
